import Mathlib

/-!
# JobHub task store and output pipeline: a shallow embedding

This file embeds the core of the JobHub backend (src/server/state.rs and the
schemas of src/server/ws.rs) in Lean and proves the specification's claims
about it.  Machine integers are modelled as `Nat` with explicit reduction
modulo `2 ^ 32` where the Rust code uses `u32`; fallible operations return
`Except`; text payloads are represented by their UTF-8 byte sequences as
`List Nat`.
-/

namespace JobHub

/-! ## Data model -/

/-- Modelled from the spec: the lifecycle `Status` enum of the execution
engine (src/server/task.rs is not part of the provided sources).
`Queued → Running → {Completed | Failed | TimedOut | Cancelled}`. -/
inductive Status
  | Queued
  | Running
  | Completed
  | Failed
  | TimedOut
  | Cancelled
deriving DecidableEq, Repr

/-- Modelled from the spec: the `Handle` capability object of
src/server/task.rs (not part of the provided sources).  It offers a
non-blocking status snapshot; cancellation requests are modelled as emitted
signal events, since sending on the control channel does not change the
stored record. -/
structure Handle where
  status : Status
deriving DecidableEq, Repr

/-- `TaskData` from src/server/state.rs: the per-task record kept in the
store, holding the owner (`chat_id`) and the engine handle. -/
structure TaskData where
  chat_id : String
  handle : Handle
deriving DecidableEq, Repr

/-- The task map `tasks: HashMap<String, TaskData>` modelled as an
association list keyed by the task id. -/
abbrev TaskMap := List (String × TaskData)

/-- `HashMap::get` on the task map. -/
def tasksGet (m : TaskMap) (id : String) : Option TaskData :=
  match m with
  | [] => none
  | p :: rest => if p.1 == id then some p.2 else tasksGet rest id

/-- `HashMap::remove` on the task map: no binding for the key remains. -/
def tasksRemove (m : TaskMap) (id : String) : TaskMap :=
  match m with
  | [] => []
  | p :: rest => if p.1 == id then tasksRemove rest id else p :: tasksRemove rest id

/-- `HashMap::insert` on the task map (replaces an existing binding). -/
def tasksInsert (m : TaskMap) (id : String) (td : TaskData) : TaskMap :=
  (id, td) :: tasksRemove m id

/-- `ApiStateInner` from src/server/state.rs, restricted to the fields the
store operations read or write: the task map, the `current_id: AtomicU32`
counter and the configured projects directory (as a path, a list of
components). -/
structure ApiStateInner where
  tasks : TaskMap
  current_id : Nat
  projects_dir : List String
deriving Repr

/-- `IoType` from src/server/ws.rs. -/
inductive IoType
  | Stdout
  | Stderr
deriving DecidableEq, Repr

/-- `TaskIoChunk` from src/server/ws.rs; the `chunk: String` payload is
represented by its UTF-8 bytes. -/
structure TaskIoChunk where
  id : String
  chunk : List Nat
  io_type : IoType
deriving DecidableEq, Repr

/-- `ServerMessage` from src/server/ws.rs. -/
inductive ServerMessage
  | TaskIoChunk (c : TaskIoChunk)
deriving DecidableEq, Repr

/-- An opaque `std::io::Error` value. -/
structure IoErr where
  code : Nat
deriving DecidableEq, Repr

/-! ## Ownership-checked lookups (cancel_task, task_status) -/

/-- `ApiStateInner::cancel_task` (state.rs lines 240-250).  Returns the
`Option<&str>` result, the state after the call, and the list of task ids a
cancel signal was sent to.  The function takes a read lock only: the map is
never written. -/
def cancel_task (st : ApiStateInner) (id chat_id : String) :
    Option String × ApiStateInner × List String :=
  match tasksGet st.tasks id with
  | some task_data =>
      if task_data.chat_id == chat_id then (some id, st, [id]) else (none, st, [])
  | none => (none, st, [])

/-- `ApiStateInner::task_status` (state.rs lines 252-262).  Returns the
handle's status snapshot iff the id is known and the recorded owner matches. -/
def task_status (st : ApiStateInner) (id chat_id : String) : Option Status :=
  match tasksGet st.tasks id with
  | some task_data =>
      if task_data.chat_id == chat_id then some task_data.handle.status else none
  | none => none

/-! ## Task creation and eviction -/

/-- Observable store events of a creation operation and its spawned
continuation, in program order: inserting the record, the spawned unit of
work beginning, the status turning terminal, and the deferred eviction
removing the record. -/
inductive StoreEvent
  | insert (id : String)
  | beginWork (id : String)
  | terminal (id : String) (t : Nat)
  | evict (id : String) (t : Nat)
deriving DecidableEq, Repr

/-- `ApiStateInner::run_task` (state.rs lines 140-236): allocates the next id
from the counter (load then store of `id + 1`, reduced mod `2 ^ 32`), builds
the record with a fresh `Queued` handle, inserts it, and only then spawns the
unit of work.  Returns the id, the post-state, and the events in program
order. -/
def run_task (st : ApiStateInner) (chat_id : String) :
    String × ApiStateInner × List StoreEvent :=
  let id := toString st.current_id
  let task_data : TaskData := { chat_id := chat_id, handle := { status := .Queued } }
  let st' : ApiStateInner :=
    { st with
      current_id := (st.current_id + 1) % 2 ^ 32
      tasks := tasksInsert st.tasks id task_data }
  (id, st', [.insert id, .beginWork id])

set_option linter.unusedVariables false in
/-- `ApiStateInner::run_download_task` (state.rs lines 97-138): first creates
the project directory; on an `std::io::Error` the error is returned by `?`
before the id is allocated, the record inserted or the unit of work spawned.
The filesystem effect of `create_dir_all` is passed in as `createDirResult`. -/
def run_download_task (st : ApiStateInner) (chat_id : String)
    (project_name : String) (createDirResult : Except IoErr Unit) :
    Except IoErr String × ApiStateInner × List StoreEvent :=
  match createDirResult with
  | .error e => (.error e, st, [])
  | .ok _ =>
      let id := toString st.current_id
      let task_data : TaskData := { chat_id := chat_id, handle := { status := .Queued } }
      let st' : ApiStateInner :=
        { st with
          current_id := (st.current_id + 1) % 2 ^ 32
          tasks := tasksInsert st.tasks id task_data }
      (.ok id, st', [.insert id, .beginWork id])

/-- The continuation spawned by `run_task` (state.rs lines 222-232) and
`run_download_task` (state.rs lines 123-135) after inserting the record: it
awaits the unit of work (terminal at time `t`), sleeps 900 seconds (the sleep
may overshoot by `slack ≥ 0`), and removes the record — the only removal in
the program.  It reads no cancellation state, so it is a function of the
terminal time alone. -/
def evictionTrace (id : String) (t slack : Nat) : List StoreEvent :=
  [.terminal id t, .evict id (t + 900 + slack)]

/-- Applying the eviction continuation's `tasks.remove(&task_id)` to the
store. -/
def evictApply (st : ApiStateInner) (id : String) : ApiStateInner :=
  { st with tasks := tasksRemove st.tasks id }

/-! ## The id counter under interleaving

`ApiStateInner::increment_current_task_id` (state.rs lines 89-95) performs a
relaxed `load` of `current_id` followed by a separate relaxed `store` of
`id + 1`.  The two accesses are individually atomic but the read-modify-write
is not; on the multi-threaded runtime two concurrent callers can interleave
between them.  We model each caller as a two-step thread. -/

/-- The progress of one thread through `increment_current_task_id`:
not yet started, holding the loaded value, or returned. -/
inductive CtrThread
  | start
  | loaded (v : Nat)
  | done (ret : Nat)
deriving DecidableEq, Repr

/-- One atomic step of a thread against the counter: `start` performs the
`load`, `loaded v` performs the `store` of `(v + 1) % 2 ^ 32` and returns
`v`; a finished thread does nothing. -/
def ctrStep (c : Nat) (t : CtrThread) : Nat × CtrThread :=
  match t with
  | .start => (c, .loaded c)
  | .loaded v => ((v + 1) % 2 ^ 32, .done v)
  | .done r => (c, .done r)

/-- Run a schedule (a list of thread indices) over the shared counter and a
list of threads, one atomic step at a time. -/
def ctrExec (c : Nat) (ts : List CtrThread) : List Nat → Nat × List CtrThread
  | [] => (c, ts)
  | i :: rest =>
      match ts[i]? with
      | none => ctrExec c ts rest
      | some t =>
          let s := ctrStep c t
          ctrExec s.1 (ts.set i s.2) rest

/-- The id returned by a finished thread. -/
def ctrReturn (t : CtrThread) : Option Nat :=
  match t with
  | .done r => some r
  | _ => none

/-! ## Permissive UTF-8 decoding (`String::from_utf8_lossy`)

The reader tasks decode each read buffer with `String::from_utf8_lossy`,
which replaces every maximal invalid subpart by U+FFFD (the "substitution of
maximal subparts" policy of the Rust standard library).  We model the decoded
string by its UTF-8 bytes, so the replacement character appears as the three
bytes `EF BF BD`. -/

/-- The UTF-8 encoding of U+FFFD REPLACEMENT CHARACTER. -/
def replacementBytes : List Nat := [0xEF, 0xBF, 0xBD]

/-- Is `b` a UTF-8 continuation byte (`0x80..=0xBF`)? -/
def contOk (b : Nat) : Bool := 0x80 ≤ b && b ≤ 0xBF

/-- Lower bound of the admissible second byte after leading byte `b`
(`0xE0` and `0xF0` restrict it to exclude overlong encodings). -/
def sndLo (b : Nat) : Nat := if b = 0xE0 then 0xA0 else if b = 0xF0 then 0x90 else 0x80

/-- Upper bound of the admissible second byte after leading byte `b`
(`0xED` excludes surrogates, `0xF4` values above U+10FFFF). -/
def sndHi (b : Nat) : Nat := if b = 0xED then 0x9F else if b = 0xF4 then 0x8F else 0xBF

/-- Length of the UTF-8 sequence introduced by leading byte `b`, or 0 when
`b` cannot lead a sequence. -/
def seqLen (b : Nat) : Nat :=
  if b < 0x80 then 1
  else if 0xC2 ≤ b && b ≤ 0xDF then 2
  else if 0xE0 ≤ b && b ≤ 0xEF then 3
  else if 0xF0 ≤ b && b ≤ 0xF4 then 4
  else 0

/-- Worker for `utf8LossyBytes`: decode one sequence per step.  A valid
sequence is copied through; a maximal invalid subpart (the longest valid
prefix of a sequence, or a lone bad byte) becomes one replacement character
and decoding resumes at the offending byte.  Each step consumes at least one
input byte, so recursion on a fuel of `l.length` steps is total and exact. -/
def utf8LossyGo : Nat → List Nat → List Nat
  | 0, _ => []
  | _, [] => []
  | fuel + 1, b :: rest =>
      if b < 0x80 then b :: utf8LossyGo fuel rest
      else if seqLen b = 0 then replacementBytes ++ utf8LossyGo fuel rest
      else
        match rest with
        | [] => replacementBytes
        | b1 :: rest1 =>
            if sndLo b ≤ b1 && b1 ≤ sndHi b then
              if seqLen b = 2 then b :: b1 :: utf8LossyGo fuel rest1
              else
                match rest1 with
                | [] => replacementBytes
                | b2 :: rest2 =>
                    if contOk b2 then
                      if seqLen b = 3 then b :: b1 :: b2 :: utf8LossyGo fuel rest2
                      else
                        match rest2 with
                        | [] => replacementBytes
                        | b3 :: rest3 =>
                            if contOk b3 then b :: b1 :: b2 :: b3 :: utf8LossyGo fuel rest3
                            else replacementBytes ++ utf8LossyGo fuel rest2
                    else replacementBytes ++ utf8LossyGo fuel rest1
            else replacementBytes ++ utf8LossyGo fuel rest

/-- `String::from_utf8_lossy`, as the UTF-8 bytes of the resulting string. -/
def utf8LossyBytes (l : List Nat) : List Nat := utf8LossyGo l.length l

/-- UTF-8 validity of a byte list, following the same sequence grammar. -/
def isValidUtf8 (l : List Nat) : Bool :=
  match l with
  | [] => true
  | b :: rest =>
      if b < 0x80 then isValidUtf8 rest
      else if seqLen b = 0 then false
      else
        match rest with
        | [] => false
        | b1 :: rest1 =>
            if sndLo b ≤ b1 && b1 ≤ sndHi b then
              if seqLen b = 2 then isValidUtf8 rest1
              else
                match rest1 with
                | [] => false
                | b2 :: rest2 =>
                    if contOk b2 then
                      if seqLen b = 3 then isValidUtf8 rest2
                      else
                        match rest2 with
                        | [] => false
                        | b3 :: rest3 =>
                            if contOk b3 then isValidUtf8 rest3 else false
                    else false
            else false

/-! ## The per-stream reader loop -/

/-- One result of `stdout_rx.read(&mut chunk).await`: `Ok(n)` carries the `n`
bytes read (`n = 0` at end of stream), `Err` a read error. -/
inductive ReadResult
  | ok (bytes : List Nat)
  | err (e : IoErr)
deriving DecidableEq, Repr

/-- The reader task spawned per stream in `ApiStateInner::run_task`
(state.rs lines 178-198 for stdout, 200-220 for stderr):
`while let Ok(n) = rx.read(&mut chunk).await { if n == 0 { break; } ... }` —
each non-empty read is decoded with `from_utf8_lossy` and broadcast as one
`TaskIoChunk` tagged with the stream; a zero-length read or a read error
ends the loop without emitting anything. -/
def readerLoop (io_type : IoType) (task_id : String) :
    List ReadResult → List ServerMessage
  | [] => []
  | .err _ :: _ => []
  | .ok bytes :: rest =>
      if bytes.isEmpty then []
      else
        .TaskIoChunk { id := task_id, chunk := utf8LossyBytes bytes, io_type := io_type }
          :: readerLoop io_type task_id rest

/-- The payload bytes of a broadcast message. -/
def msgChunk (m : ServerMessage) : List Nat :=
  match m with
  | .TaskIoChunk c => c.chunk

/-! ## Filesystem operations (list_files, get_file)

Paths are lists of components.  `PathBuf::join` appends the components of
the (relative) argument verbatim — including any `..` — and the operating
system resolves `..` only when the path is used (`exists`, `read_to_string`,
`read_dir`).  The filesystem is a finite set of directories and files keyed
by resolved paths. -/

/-- Split a character list on `/`, accumulating the current component in
reverse. -/
def splitPathGo : List Char → List Char → List String
  | [], cur => [String.mk cur.reverse]
  | c :: rest, cur =>
      if c = '/' then String.mk cur.reverse :: splitPathGo rest []
      else splitPathGo rest (c :: cur)

/-- The components of a request-supplied name, as `Path` parses them:
split on `/`, dropping empty components and the no-op `.` component. -/
def splitPath (s : String) : List String :=
  ((splitPathGo s.data []).filter (fun c => c ≠ "")).filter (fun c => c ≠ ".")

/-- Resolution of `..` components, as the OS performs on access. -/
def resolveComps (p : List String) : List String :=
  p.foldl (fun acc c => if c = ".." then acc.dropLast else acc ++ [c]) []

/-- A filesystem: directories and files, keyed by resolved paths. -/
structure FsModel where
  dirs : List (List String)
  files : List (List String × String)
deriving Repr

/-- `Path::exists`: the path, once resolved, names a directory or a file. -/
def fsExists (fs : FsModel) (p : List String) : Bool :=
  fs.dirs.contains (resolveComps p) ||
    fs.files.any (fun f => f.1 == resolveComps p)

/-- `tokio::fs::read_to_string` on the resolved path. -/
def fsRead (fs : FsModel) (p : List String) : Option String :=
  (fs.files.find? (fun f => f.1 == resolveComps p)).map Prod.snd

/-- `ListFilesError` from src/server/state.rs. -/
inductive ListFilesError
  | NotFound
  | IoError (e : IoErr)
deriving DecidableEq, Repr

/-- `GetFileError` from src/server/state.rs. -/
inductive GetFileError
  | NotFound
  | IoError (e : IoErr)
deriving DecidableEq, Repr

/-- The `while let Ok(Some(entry)) = read_dir.next_entry().await` loop of
`ApiStateInner::list_files` (state.rs lines 275-280): collect entry names
until the stream ends or an entry read fails; a failure silently ends the
loop. -/
def collectEntries : List (Except IoErr String) → List String
  | [] => []
  | .ok name :: rest => name :: collectEntries rest
  | .error _ :: _ => []

/-- `ApiStateInner::list_files` (state.rs lines 264-283): `NotFound` if the
project directory does not exist; an `IoError` only if opening the directory
(`read_dir`) fails, passed in as `openResult`; otherwise the entry names
collected until the first entry failure, as a success.  The `next_entry`
results are passed in as `entries`. -/
def list_files (st : ApiStateInner) (fs : FsModel) (project_name : String)
    (openResult : Except IoErr Unit) (entries : List (Except IoErr String)) :
    Except ListFilesError (List String) :=
  let project_dir := st.projects_dir ++ splitPath project_name
  if !fsExists fs project_dir then .error .NotFound
  else
    match openResult with
    | .error e => .error (.IoError e)
    | .ok _ => .ok (collectEntries entries)

/-- `ApiStateInner::get_file` (state.rs lines 285-305): `NotFound` if the
project directory or the joined file path does not exist; otherwise the file
is read.  `file_name` is joined to the project directory without any
validation of its components. -/
def get_file (st : ApiStateInner) (fs : FsModel)
    (project_name file_name : String) : Except GetFileError String :=
  let project_dir := st.projects_dir ++ splitPath project_name
  if !fsExists fs project_dir then .error .NotFound
  else
    let file_path := project_dir ++ splitPath file_name
    if !fsExists fs file_path then .error .NotFound
    else
      match fsRead fs file_path with
      | some content => .ok content
      | none => .error (.IoError { code := 0 })

/-! ## Helper lemmas -/

/-- Decoding with fuel at least the input length is exact on valid UTF-8. -/
theorem utf8LossyGo_of_valid (fuel : Nat) :
    ∀ l : List Nat, l.length ≤ fuel → isValidUtf8 l = true → utf8LossyGo fuel l = l := by
  induction fuel with
  | zero =>
      intro l hl _
      have h : l = [] := by
        cases l with
        | nil => rfl
        | cons a t => simp at hl
      subst h
      rfl
  | succ fuel ih =>
      intro l hl hv
      cases l with
      | nil => rfl
      | cons b rest =>
          unfold isValidUtf8 at hv
          unfold utf8LossyGo
          by_cases hb : b < 0x80
          · have hl' : rest.length ≤ fuel := by simp at hl; omega
            simp [hb] at hv
            simp [hb, ih rest hl' hv]
          · by_cases h0 : seqLen b = 0
            · simp [hb, h0] at hv
            · cases rest with
              | nil => simp [hb, h0] at hv
              | cons b1 rest1 =>
                  by_cases hs : (sndLo b ≤ b1 && b1 ≤ sndHi b) = true
                  · by_cases h2 : seqLen b = 2
                    · have hl' : rest1.length ≤ fuel := by simp at hl; omega
                      simp [hb, h0, hs, h2] at hv
                      simp [hb, h0, hs, h2, ih rest1 hl' hv]
                    · cases rest1 with
                      | nil => simp [hb, h0, hs, h2] at hv
                      | cons b2 rest2 =>
                          by_cases hc2 : contOk b2 = true
                          · by_cases h3 : seqLen b = 3
                            · have hl' : rest2.length ≤ fuel := by simp at hl; omega
                              simp [hb, h0, hs, h2, hc2, h3] at hv
                              simp [hb, h0, hs, h2, hc2, h3, ih rest2 hl' hv]
                            · cases rest2 with
                              | nil => simp [hb, h0, hs, h2, hc2, h3] at hv
                              | cons b3 rest3 =>
                                  by_cases hc3 : contOk b3 = true
                                  · have hl' : rest3.length ≤ fuel := by simp at hl; omega
                                    simp [hb, h0, hs, h2, hc2, h3, hc3] at hv
                                    simp [hb, h0, hs, h2, hc2, h3, hc3, ih rest3 hl' hv]
                                  · simp [hb, h0, hs, h2, hc2, h3, hc3] at hv
                          · simp [hb, h0, hs, h2, hc2] at hv
                  · simp [hb, h0, hs] at hv

/-- `from_utf8_lossy` is the identity on valid UTF-8 byte sequences. -/
theorem utf8LossyBytes_of_valid (l : List Nat) (hv : isValidUtf8 l = true) :
    utf8LossyBytes l = l :=
  utf8LossyGo_of_valid l.length l le_rfl hv

/-- Lookup at a key other than the removed one is unchanged. -/
theorem tasksGet_remove_ne (m : TaskMap) (id k : String) (h : k ≠ id) :
    tasksGet (tasksRemove m id) k = tasksGet m k := by
  induction m with
  | nil => rfl
  | cons p m ih =>
      by_cases hp : p.1 = id
      · have hk : (p.1 == k) = false := by
          simp only [beq_eq_false_iff_ne, ne_eq, hp]
          exact fun hc => h hc.symm
        simp [tasksRemove, tasksGet, hp, hk, ih, Ne.symm h]
      · simp [tasksRemove, tasksGet, hp, ih]

/-- Lookup after removal at the removed key is `none`. -/
theorem tasksGet_remove_self (m : TaskMap) (id : String) :
    tasksGet (tasksRemove m id) id = none := by
  induction m with
  | nil => rfl
  | cons p m ih =>
      by_cases hp : p.1 = id
      · simp [tasksRemove, hp, ih]
      · simp [tasksRemove, tasksGet, hp, ih]

/-- Lookup after insertion at the inserted key returns the new record. -/
theorem tasksGet_insert_self (m : TaskMap) (id : String) (td : TaskData) :
    tasksGet (tasksInsert m id td) id = some td := by
  simp [tasksInsert, tasksGet]

/-- Lookup after insertion at another key is unchanged. -/
theorem tasksGet_insert_ne (m : TaskMap) (id k : String) (td : TaskData) (h : k ≠ id) :
    tasksGet (tasksInsert m id td) k = tasksGet m k := by
  have hk : (id == k) = false := by
    simp only [beq_eq_false_iff_ne, ne_eq]
    exact fun hc => h hc.symm
  simp only [tasksInsert, tasksGet, hk, if_false, Bool.false_eq_true]
  exact tasksGet_remove_ne m id k h

/-- The entry loop returns the names read before the first failure. -/
theorem collectEntries_append_error (names : List String) (e : IoErr)
    (rest : List (Except IoErr String)) :
    collectEntries (names.map .ok ++ .error e :: rest) = names := by
  induction names with
  | nil => rfl
  | cons n ns ih => simpa [collectEntries] using ih

/-- The reader loop turns a run of non-empty reads into one tagged message
per read, in read order, and then continues with the remaining reads. -/
theorem readerLoop_map_ok (io_type : IoType) (task_id : String)
    (chunks : List (List Nat)) (tail : List ReadResult)
    (h : ∀ c ∈ chunks, c ≠ []) :
    readerLoop io_type task_id (chunks.map .ok ++ tail)
      = chunks.map (fun c =>
          .TaskIoChunk { id := task_id, chunk := utf8LossyBytes c, io_type := io_type })
        ++ readerLoop io_type task_id tail := by
  induction chunks with
  | nil => simp
  | cons c cs ih =>
      have hc : ¬ c.isEmpty := by
        simpa using h c (List.mem_cons_self c cs)
      simp only [List.map_cons, List.cons_append, readerLoop, hc, if_false,
        Bool.false_eq_true]
      exact congrArg _ (ih (fun x hx => h x (List.mem_cons_of_mem c hx)))

/-- Mapping a run of valid chunks through the broadcast message and back to
payload bytes flattens to the original bytes. -/
theorem join_msgChunk_of_valid (io_type : IoType) (task_id : String)
    (cs : List (List Nat)) (h : ∀ c ∈ cs, isValidUtf8 c = true) :
    ((cs.map (fun c =>
        ServerMessage.TaskIoChunk ⟨task_id, utf8LossyBytes c, io_type⟩)).map
      msgChunk).flatten = cs.flatten := by
  induction cs with
  | nil => rfl
  | cons c cs ih =>
      rw [List.forall_mem_cons] at h
      simp only [List.map_cons, List.flatten_cons, msgChunk]
      rw [utf8LossyBytes_of_valid c h.1, ih h.2]

/-! ## The claims -/

/-- C1: evaluation of `increment_current_task_id` at the failing
interleaving.  The relaxed `load` / `store` pair is not an atomic
read-modify-write: when two concurrent allocations interleave as
load, load, store, store (schedule `[0, 1, 0, 1]` from counter 0) both
return id 0 — two live tasks with equal ids, against the claim that ids are
distinct and strictly increasing.  The sequential schedule `[0, 0, 1, 1]`
shows the intended distinct ids 0 and 1. -/
theorem increment_task_id_race_duplicate :
    (ctrExec 0 [.start, .start] [0, 1, 0, 1]).2 = [.done 0, .done 0]
    ∧ (ctrExec 0 [.start, .start] [0, 0, 1, 1]).2 = [.done 0, .done 1] := by
  decide

/-- C2: `cancel_task` and `task_status` return the same `none` (notFound)
result on an unknown id and on a known id whose recorded owner differs from
the presented owner, so the two cases are indistinguishable to the caller;
with the matching owner, `task_status` returns the handle status and
`cancel_task` reports found. -/
theorem status_cancel_notFound_indistinguishable (st : ApiStateInner) (id owner : String) :
    (tasksGet st.tasks id = none →
        (cancel_task st id owner).1 = none ∧ task_status st id owner = none)
    ∧ (∀ td : TaskData, tasksGet st.tasks id = some td → td.chat_id ≠ owner →
        (cancel_task st id owner).1 = none ∧ task_status st id owner = none)
    ∧ (∀ td : TaskData, tasksGet st.tasks id = some td → td.chat_id = owner →
        (cancel_task st id owner).1 = some id
          ∧ task_status st id owner = some td.handle.status) := by
  refine ⟨fun h => ?_, fun td h hne => ?_, fun td h he => ?_⟩
  · simp [cancel_task, task_status, h]
  · simp [cancel_task, task_status, h, hne]
  · simp [cancel_task, task_status, h, he]

/-- Witness for C2 at a one-task store: unknown id "1", wrong owner "bob"
and matching owner "alice" on task "0". -/
theorem status_cancel_notFound_indistinguishable_witness :
    (cancel_task ⟨[("0", ⟨"alice", ⟨.Running⟩⟩)], 1, ["projects"]⟩ "1" "alice").1 = none
    ∧ task_status ⟨[("0", ⟨"alice", ⟨.Running⟩⟩)], 1, ["projects"]⟩ "1" "alice" = none
    ∧ (cancel_task ⟨[("0", ⟨"alice", ⟨.Running⟩⟩)], 1, ["projects"]⟩ "0" "bob").1 = none
    ∧ task_status ⟨[("0", ⟨"alice", ⟨.Running⟩⟩)], 1, ["projects"]⟩ "0" "bob" = none
    ∧ (cancel_task ⟨[("0", ⟨"alice", ⟨.Running⟩⟩)], 1, ["projects"]⟩ "0" "alice").1 = some "0"
    ∧ task_status ⟨[("0", ⟨"alice", ⟨.Running⟩⟩)], 1, ["projects"]⟩ "0" "alice"
        = some .Running := by
  have h1 := status_cancel_notFound_indistinguishable
    ⟨[("0", ⟨"alice", ⟨.Running⟩⟩)], 1, ["projects"]⟩ "1" "alice"
  have h2 := status_cancel_notFound_indistinguishable
    ⟨[("0", ⟨"alice", ⟨.Running⟩⟩)], 1, ["projects"]⟩ "0" "bob"
  have h3 := status_cancel_notFound_indistinguishable
    ⟨[("0", ⟨"alice", ⟨.Running⟩⟩)], 1, ["projects"]⟩ "0" "alice"
  refine ⟨(h1.1 (by decide)).1, (h1.1 (by decide)).2,
    (h2.2.1 ⟨"alice", ⟨.Running⟩⟩ (by decide) (by decide)).1,
    (h2.2.1 ⟨"alice", ⟨.Running⟩⟩ (by decide) (by decide)).2,
    (h3.2.2 ⟨"alice", ⟨.Running⟩⟩ (by decide) rfl).1,
    (h3.2.2 ⟨"alice", ⟨.Running⟩⟩ (by decide) rfl).2⟩

/-- C3 counterexample: a single read of the byte `0xFF` is decoded lossily
to the replacement character, so concatenating the emitted chunks does not
reproduce the original bytes. -/
theorem stream_concat_lossy_counterexample :
    ((readerLoop .Stdout "0" [.ok [0xFF], .ok []]).map msgChunk).flatten ≠ [0xFF] := by
  decide

set_option linter.unusedVariables false in
/-- C3 (amended): when every read chunk is valid UTF-8 (in particular for
ASCII output), the reader emits exactly one chunk event per read, in read
order with no duplicates, and concatenating the emitted chunks reproduces
the produced bytes exactly — for any split of the stream into reads of at
most the 256-byte buffer. -/
theorem stream_concat_exact_on_valid_utf8 (io_type : IoType) (task_id : String)
    (chunks : List (List Nat))
    (hne : ∀ c ∈ chunks, c ≠ []) (hsz : ∀ c ∈ chunks, c.length ≤ 256)
    (hv : ∀ c ∈ chunks, isValidUtf8 c = true) :
    readerLoop io_type task_id (chunks.map .ok ++ [.ok []])
      = chunks.map (fun c =>
          .TaskIoChunk { id := task_id, chunk := utf8LossyBytes c, io_type := io_type })
    ∧ ((readerLoop io_type task_id (chunks.map .ok ++ [.ok []])).map msgChunk).flatten
        = chunks.flatten := by
  have h1 := readerLoop_map_ok io_type task_id chunks [.ok []] hne
  have h2 : readerLoop io_type task_id [.ok []] = [] := by simp [readerLoop]
  rw [h2, List.append_nil] at h1
  refine ⟨h1, ?_⟩
  rw [h1]
  exact join_msgChunk_of_valid io_type task_id chunks hv

/-- Witness for C3 (amended): the ASCII bytes "hi" then "!" over two reads. -/
theorem stream_concat_exact_on_valid_utf8_witness :
    readerLoop .Stdout "0" [.ok [104, 105], .ok [33], .ok []]
      = [.TaskIoChunk ⟨"0", [104, 105], .Stdout⟩, .TaskIoChunk ⟨"0", [33], .Stdout⟩]
    ∧ ((readerLoop .Stdout "0" [.ok [104, 105], .ok [33], .ok []]).map msgChunk).flatten
        = [104, 105, 33] := by
  have h := stream_concat_exact_on_valid_utf8 .Stdout "0" [[104, 105], [33]]
    (by decide) (by decide) (by decide)
  exact ⟨h.1, h.2⟩

/-- C4: the eviction continuation spawned at creation removes the record
exactly once, at `t + 900 + slack` seconds — no earlier than the terminal
time `t` plus the fixed 900-second retention delay, strictly after `t` —
and a cancellation request on the task leaves the store state, and hence
the pending eviction, untouched. -/
theorem eviction_once_after_retention (id : String) (t slack : Nat)
    (st : ApiStateInner) (cid owner : String) :
    ((evictionTrace id t slack).filter (fun e =>
        match e with | .evict _ _ => true | _ => false)).length = 1
    ∧ (∀ i te, StoreEvent.evict i te ∈ evictionTrace id t slack →
        i = id ∧ te = t + 900 + slack ∧ t + 900 ≤ te ∧ t < te)
    ∧ (cancel_task st cid owner).2.1 = st := by
  refine ⟨by simp [evictionTrace], ?_, ?_⟩
  · intro i te hmem
    simp [evictionTrace] at hmem
    obtain ⟨hi, hte⟩ := hmem
    subst hi
    subst hte
    exact ⟨rfl, rfl, by omega, by omega⟩
  · simp only [cancel_task]
    split
    · split <;> rfl
    · rfl

/-- Witness for C4 at task "7", terminal time 5, no sleep overshoot. -/
theorem eviction_once_after_retention_witness :
    ((evictionTrace "7" 5 0).filter (fun e =>
        match e with | .evict _ _ => true | _ => false)).length = 1
    ∧ 5 + 900 ≤ 905 ∧ 5 < 905
    ∧ (cancel_task ⟨[], 0, []⟩ "x" "y").2.1 = (⟨[], 0, []⟩ : ApiStateInner) := by
  have h := eviction_once_after_retention "7" 5 0 ⟨[], 0, []⟩ "x" "y"
  exact ⟨h.1, (h.2.1 "7" 905 (by decide)).2.2.1, (h.2.1 "7" 905 (by decide)).2.2.2, h.2.2⟩

/-- C5: when creating the project directory fails, `run_download_task`
returns that very error, the state (counter and task map) is unchanged — so
no id was allocated and no record inserted — and no store event (insert or
beginWork) happens: no unit of work is started. -/
theorem run_download_task_io_error_no_registration (st : ApiStateInner)
    (chat_id project_name : String) (e : IoErr) :
    (run_download_task st chat_id project_name (.error e)).1 = .error e
    ∧ (run_download_task st chat_id project_name (.error e)).2.1 = st
    ∧ (run_download_task st chat_id project_name (.error e)).2.1.current_id = st.current_id
    ∧ (run_download_task st chat_id project_name (.error e)).2.2 = [] :=
  ⟨rfl, rfl, rfl, rfl⟩

/-- C6: a non-empty read emits exactly one chunk event tagged with the
stream, carrying the permissively decoded text, and the loop continues; a
zero-length read ends the reader cleanly with no event; decoding never
fails — an invalid byte becomes the replacement character. -/
theorem reader_read_semantics (io_type : IoType) (task_id : String)
    (b : Nat) (bs : List Nat) (rest : List ReadResult) :
    readerLoop io_type task_id (.ok (b :: bs) :: rest)
      = .TaskIoChunk { id := task_id, chunk := utf8LossyBytes (b :: bs), io_type := io_type }
          :: readerLoop io_type task_id rest
    ∧ readerLoop io_type task_id (.ok [] :: rest) = []
    ∧ utf8LossyBytes [0xFF] = replacementBytes := by
  refine ⟨by simp [readerLoop], by simp [readerLoop], by decide⟩

/-- C7: a cancel request with a wrong owner reports `none` (notFound),
changes nothing (same state, no cancel signal sent), and the task remains
cancellable by the recorded owner. -/
theorem cancel_wrong_owner_noop (st : ApiStateInner) (id owner : String) (td : TaskData)
    (hget : tasksGet st.tasks id = some td) (hne : td.chat_id ≠ owner) :
    (cancel_task st id owner).1 = none
    ∧ (cancel_task st id owner).2.1 = st
    ∧ (cancel_task st id owner).2.2 = []
    ∧ (cancel_task st id td.chat_id).1 = some id
    ∧ (cancel_task st id td.chat_id).2.2 = [id] := by
  simp [cancel_task, hget, hne]

/-- Witness for C7: owner "bob" cannot cancel the task of "alice", who can. -/
theorem cancel_wrong_owner_noop_witness :
    (cancel_task ⟨[("0", ⟨"alice", ⟨.Running⟩⟩)], 1, ["projects"]⟩ "0" "bob").1 = none
    ∧ (cancel_task ⟨[("0", ⟨"alice", ⟨.Running⟩⟩)], 1, ["projects"]⟩ "0" "bob").2.2 = []
    ∧ (cancel_task ⟨[("0", ⟨"alice", ⟨.Running⟩⟩)], 1, ["projects"]⟩ "0" "alice").1
        = some "0" := by
  have h := cancel_wrong_owner_noop ⟨[("0", ⟨"alice", ⟨.Running⟩⟩)], 1, ["projects"]⟩
    "0" "bob" ⟨"alice", ⟨.Running⟩⟩ (by decide) (by decide)
  exact ⟨h.1, h.2.2.1, h.2.2.2.1⟩

/-- C8: in both creation operations the record insertion event precedes the
beginWork event; the inserted record is present under the allocated id; and
records leave the map only through the eviction continuation — `cancel_task`
never changes the map, and `evictApply` removes exactly its key. -/
theorem record_insert_precedes_work (st st2 : ApiStateInner) (cid pn i o : String) :
    (run_task st cid).1 = toString st.current_id
    ∧ (run_task st cid).2.2
        = [.insert (toString st.current_id), .beginWork (toString st.current_id)]
    ∧ (run_download_task st cid pn (.ok ())).2.2
        = [.insert (toString st.current_id), .beginWork (toString st.current_id)]
    ∧ tasksGet (run_task st cid).2.1.tasks (toString st.current_id)
        = some ⟨cid, ⟨.Queued⟩⟩
    ∧ (cancel_task st2 i o).2.1.tasks = st2.tasks
    ∧ tasksGet (evictApply st2 i).tasks i = none
    ∧ (∀ k, k ≠ i → tasksGet (evictApply st2 i).tasks k = tasksGet st2.tasks k) := by
  refine ⟨rfl, rfl, rfl, tasksGet_insert_self _ _ _, ?_, tasksGet_remove_self _ _,
    fun k hk => tasksGet_remove_ne _ _ _ hk⟩
  simp only [cancel_task]
  split
  · split <;> rfl
  · rfl

/-- Witness for C8: creation from a fresh store, and eviction of task "1"
leaving key "2" alone. -/
theorem record_insert_precedes_work_witness :
    (run_task ⟨[], 0, ["d"]⟩ "a").2.2
      = [.insert (toString (0 : Nat)), .beginWork (toString (0 : Nat))]
    ∧ tasksGet (evictApply ⟨[("1", ⟨"a", ⟨.Queued⟩⟩)], 2, []⟩ "1").tasks "1" = none
    ∧ tasksGet (evictApply ⟨[("1", ⟨"a", ⟨.Queued⟩⟩)], 2, []⟩ "1").tasks "2"
        = tasksGet [("1", ⟨"a", ⟨.Queued⟩⟩)] "2" := by
  have h := record_insert_precedes_work ⟨[], 0, ["d"]⟩ ⟨[("1", ⟨"a", ⟨.Queued⟩⟩)], 2, []⟩
    "a" "p" "1" "o"
  exact ⟨h.2.1, h.2.2.2.2.2.1, h.2.2.2.2.2.2 "2" (by decide)⟩

/-- C9: `get_file` joins the supplied file name to the project directory
without validation, so the name `../../secret.txt` resolves outside the
project subtree and its content is returned instead of notFound: the
resolved path is `secret.txt` at the filesystem root, not under
`projects/p`. -/
theorem get_file_path_traversal :
    get_file ⟨[], 0, ["projects"]⟩
        ⟨[["projects"], ["projects", "p"]], [(["secret.txt"], "top-secret")]⟩
        "p" "../../secret.txt" = .ok "top-secret"
    ∧ resolveComps (["projects"] ++ splitPath "p" ++ splitPath "../../secret.txt")
        = ["secret.txt"]
    ∧ List.isPrefixOf ["projects", "p"] ["secret.txt"] = false := by
  exact ⟨rfl, rfl, rfl⟩

/-- C10: when a directory entry read fails partway through, `list_files`
returns the names collected so far as a success — silent truncation — while
an I/O error is reported only when opening the directory itself fails. -/
theorem list_files_entry_error_truncates (st : ApiStateInner) (fs : FsModel)
    (project_name : String) (names : List String) (e : IoErr)
    (rest : List (Except IoErr String))
    (hex : fsExists fs (st.projects_dir ++ splitPath project_name) = true) :
    list_files st fs project_name (.ok ()) (names.map .ok ++ .error e :: rest) = .ok names
    ∧ (∀ entries, list_files st fs project_name (.error e) entries
        = .error (.IoError e)) := by
  constructor
  · simp [list_files, hex, collectEntries_append_error]
  · intro entries
    simp [list_files, hex]

/-- Witness for C10: one good entry, then a failing one, then an unread one. -/
theorem list_files_entry_error_truncates_witness :
    list_files ⟨[], 0, ["projects"]⟩ ⟨[["projects", "p"]], []⟩ "p" (.ok ())
        [.ok "a", .error ⟨5⟩, .ok "b"] = .ok ["a"]
    ∧ list_files ⟨[], 0, ["projects"]⟩ ⟨[["projects", "p"]], []⟩ "p" (.error ⟨5⟩) []
        = .error (.IoError ⟨5⟩) := by
  have h := list_files_entry_error_truncates ⟨[], 0, ["projects"]⟩ ⟨[["projects", "p"]], []⟩
    "p" ["a"] ⟨5⟩ [.ok "b"] (by decide)
  exact ⟨h.1, h.2 []⟩

end JobHub
